import Mathlib

/-!
Verification of core components of the Reflyx code-indexing system:
the Tree-sitter chunker (size splitting, complexity scoring, language
detection), the embedding service (cache-keyed batch embedding), the
Qdrant vector-store wrapper, LLM provider selection, and the WebSocket
streaming session manager.

Python strings are modelled as Lean `String`s; where line-oriented
operations matter we work on the underlying `List Char`.  Machine floats
that only undergo comparison and exact-step arithmetic are modelled as
rationals.  External collaborators (the embedding model, the hash
function, the Qdrant backend) are parameters of the embedded functions.
-/

namespace Reflyx

/-! ## String utilities: splitting and joining, mirroring Python
`str.split(sep)` (for a one-character separator) and `sep.join`. -/

/-- Split a character list at every occurrence of `sep`, keeping empty
segments — the semantics of Python `str.split(sep)` for a single-char
separator: the result always has at least one element. -/
def splitOnChar (sep : Char) : List Char → List (List Char)
  | [] => [[]]
  | c :: cs =>
    if c = sep then [] :: splitOnChar sep cs
    else
      match splitOnChar sep cs with
      | [] => [[c]]
      | l :: ls => (c :: l) :: ls

/-- Split at newlines: Python `content.split('\n')`. -/
def splitLines : List Char → List (List Char) := splitOnChar '\n'

/-- Join segments with a separator char: Python `sep.join(...)` on the
character level. -/
def joinWithChar (sep : Char) : List (List Char) → List Char
  | [] => []
  | [l] => l
  | l :: ls => l ++ sep :: joinWithChar sep ls

/-- Join with newlines: Python `'\n'.join(...)`. -/
def joinNL : List (List Char) → List Char := joinWithChar '\n'

/-- `'\n'.join` on Lean strings. -/
def joinNLStrings : List String → String
  | [] => ""
  | [s] => s
  | s :: ss => s ++ "\n" ++ joinNLStrings ss

theorem splitOnChar_ne_nil (sep : Char) (cs : List Char) :
    splitOnChar sep cs ≠ [] := by
  induction cs with
  | nil => simp [splitOnChar]
  | cons c cs ih =>
    simp only [splitOnChar]
    split
    · simp
    · split
      · simp
      · simp

theorem splitLines_ne_nil (cs : List Char) : splitLines cs ≠ [] :=
  splitOnChar_ne_nil '\n' cs

theorem joinWithChar_splitOnChar (sep : Char) (cs : List Char) :
    joinWithChar sep (splitOnChar sep cs) = cs := by
  induction cs with
  | nil => rfl
  | cons c cs ih =>
    simp only [splitOnChar]
    split
    · rename_i hsep
      rw [show joinWithChar sep ([] :: splitOnChar sep cs)
            = [] ++ sep :: joinWithChar sep (splitOnChar sep cs) from ?_, ih]
      · simp [hsep]
      · cases h : splitOnChar sep cs with
        | nil => exact absurd h (splitOnChar_ne_nil sep cs)
        | cons l ls => rfl
    · cases h : splitOnChar sep cs with
      | nil => exact absurd h (splitOnChar_ne_nil sep cs)
      | cons l ls =>
        cases ls with
        | nil =>
          simp only [joinWithChar]
          rw [h] at ih
          simp only [joinWithChar] at ih
          simp [ih]
        | cons l' ls' =>
          simp only [joinWithChar]
          rw [h] at ih
          simp only [joinWithChar] at ih
          simp [← ih]

theorem joinNL_splitLines (cs : List Char) : joinNL (splitLines cs) = cs :=
  joinWithChar_splitOnChar '\n' cs

/-- No segment produced by `splitOnChar sep` contains `sep`. -/
theorem splitOnChar_no_sep (sep : Char) (cs : List Char) :
    ∀ l ∈ splitOnChar sep cs, sep ∉ l := by
  induction cs with
  | nil => simp [splitOnChar]
  | cons c cs ih =>
    simp only [splitOnChar]
    split
    · intro l hl
      rcases List.mem_cons.mp hl with h | h
      · simp [h]
      · exact ih l h
    · rename_i hne
      cases h : splitOnChar sep cs with
      | nil => exact absurd h (splitOnChar_ne_nil sep cs)
      | cons l ls =>
        intro l' hl'
        rcases List.mem_cons.mp hl' with h' | h'
        · subst h'
          intro hmem
          rcases List.mem_cons.mp hmem with h'' | h''
          · exact hne h''.symm
          · exact ih l (by simp [h]) h''
        · exact ih l' (by simp [h, h'])

/-- A `sep`-free list splits into itself as a single segment. -/
theorem splitOnChar_of_no_sep (sep : Char) (l : List Char) (hl : sep ∉ l) :
    splitOnChar sep l = [l] := by
  induction l with
  | nil => rfl
  | cons c l ih =>
    have hc : c ≠ sep := by intro h; exact hl (by simp [h])
    have hl' : sep ∉ l := by intro h; exact hl (List.mem_cons_of_mem c h)
    simp only [splitOnChar, if_neg (fun h => hc h), ih hl']

/-- Splitting past a leading `sep`-free prefix peels it off as one segment. -/
theorem splitOnChar_append_sep (sep : Char) (l suffix : List Char)
    (hl : sep ∉ l) :
    splitOnChar sep (l ++ sep :: suffix) = l :: splitOnChar sep suffix := by
  induction l with
  | nil => simp [splitOnChar]
  | cons c l ih =>
    have hc : c ≠ sep := by intro h; exact hl (by simp [h])
    have hl' : sep ∉ l := by intro h; exact hl (List.mem_cons_of_mem c h)
    simp only [List.cons_append, splitOnChar, if_neg (fun h => hc h),
      List.append_eq, ih hl']

/-- Splitting the join of a `sep`-free nonempty segment list gives it back. -/
theorem splitOnChar_joinWithChar (sep : Char) (ls : List (List Char))
    (hne : ls ≠ []) (hfree : ∀ l ∈ ls, sep ∉ l) :
    splitOnChar sep (joinWithChar sep ls) = ls := by
  induction ls with
  | nil => exact absurd rfl hne
  | cons l ls ih =>
    cases ls with
    | nil => exact splitOnChar_of_no_sep sep l (hfree l (by simp))
    | cons l' ls' =>
      have hjoin : joinWithChar sep (l :: l' :: ls')
          = l ++ sep :: joinWithChar sep (l' :: ls') := rfl
      rw [hjoin, splitOnChar_append_sep sep l _ (hfree l (by simp))]
      rw [ih (by simp) (fun x hx => hfree x (by simp [hx]))]

theorem splitLines_joinNL (ls : List (List Char)) (hne : ls ≠ [])
    (hfree : ∀ l ∈ ls, '\n' ∉ l) : splitLines (joinNL ls) = ls :=
  splitOnChar_joinWithChar '\n' ls hne hfree

/-- Sum of segment lengths is bounded by the original length. -/
theorem splitOnChar_sum_le (sep : Char) (cs : List Char) :
    ((splitOnChar sep cs).map List.length).sum ≤ cs.length := by
  induction cs with
  | nil => simp [splitOnChar]
  | cons c cs ih =>
    simp only [splitOnChar]
    split
    · simp only [List.map_cons, List.sum_cons, List.length_nil, List.length_cons]
      omega
    · cases h : splitOnChar sep cs with
      | nil => exact absurd h (splitOnChar_ne_nil sep cs)
      | cons l ls =>
        rw [h] at ih
        simp only [List.map_cons, List.sum_cons, List.length_cons] at ih ⊢
        omega

theorem data_joinNLStrings (ss : List String) :
    (joinNLStrings ss).data = joinNL (ss.map String.data) := by
  induction ss with
  | nil => rfl
  | cons s ss ih =>
    cases ss with
    | nil => rfl
    | cons s' ss' =>
      show (s ++ "\n" ++ joinNLStrings (s' :: ss')).data = _
      simp only [String.data_append, ih]
      show s.data ++ ['\n'] ++ _ = joinWithChar '\n' (s.data :: String.data s' :: List.map String.data ss')
      simp only [joinWithChar, joinNL, List.append_assoc, List.singleton_append,
        List.map_cons]

/-! ## Data model: `CodeChunk` (src/indexer/parsers/tree_sitter_parser.py) -/

/-- The `ChunkType` enum of tree_sitter_parser.py. -/
inductive ChunkType
  | function | method | «class» | interface | struct | enum
  | «variable» | «import» | comment | docstring
  deriving DecidableEq, Repr

/-- The `.value` string of each enum member. -/
def ChunkType.value : ChunkType → String
  | .function => "function"
  | .method => "method"
  | .«class» => "class"
  | .interface => "interface"
  | .struct => "struct"
  | .enum => "enum"
  | .«variable» => "variable"
  | .«import» => "import"
  | .comment => "comment"
  | .docstring => "docstring"

/-- The `CodeChunk` dataclass.  Python floats that only undergo exact-step
arithmetic are modelled as rationals; `dependencies = None` is normalised
to `[]` by `__post_init__`, so the model stores the list directly. -/
structure CodeChunk where
  id : String
  content : String
  chunk_type : ChunkType
  language : String
  file_path : String
  line_start : Nat
  line_end : Nat
  function_name : Option String := none
  class_name : Option String := none
  module_name : Option String := none
  docstring : Option String := none
  complexity_score : ℚ := 0
  dependencies : List String := []
  context : Option String := none
  deriving DecidableEq, Repr

/-! ## Complexity scoring: `TreeSitterParser._calculate_complexity` -/

/-- The fixed keyword list hardcoded in `_calculate_complexity`. -/
def complexity_keywords : List String :=
  ["if", "else", "elif", "for", "while", "try", "catch", "except",
   "switch", "case", "break", "continue", "return", "yield"]

/-- Python substring containment `needle in hay`. -/
def hasSubstr (needle : List Char) : List Char → Bool
  | [] => needle.isEmpty
  | c :: t => needle.isPrefixOf (c :: t) || hasSubstr needle t

/-- Python `str.lower()` (character-wise). -/
def pyLower (s : String) : String := String.mk (s.data.map Char.toLower)

/-- Python `str.strip()`: drop leading and trailing whitespace. -/
def pyStrip (s : String) : String :=
  String.mk (((s.data.dropWhile Char.isWhitespace).reverse.dropWhile
    Char.isWhitespace).reverse)

/-- How many keywords of the fixed set occur in the stripped, lowercased
line — the inner `for keyword in complexity_keywords` loop adds `0.5`
once per such keyword. -/
def lineKeywordCount (line : String) : Nat :=
  (complexity_keywords.filter
    (fun k => hasSubstr k.data (pyLower (pyStrip line)).data)).length

/-- `TreeSitterParser._calculate_complexity`: base score `1.0`, plus `0.5`
for every (line, keyword) pair where the keyword occurs in the stripped
lowercased line, divided by `max(len(lines), 1)` and capped by `min(·, 10.0)`. -/
def _calculate_complexity (content : String) : ℚ :=
  min
    ((((splitLines content.data).map String.mk).foldl
        (fun (sc : ℚ) line => sc + (1 / 2 : ℚ) * (lineKeywordCount line : ℚ))
        (1 : ℚ))
      / ((max ((splitLines content.data).map String.mk).length 1 : ℕ) : ℚ))
    (10 : ℚ)

/-- The complexity formula as the specification words it: `0.5` is added
once per line that contains any keyword, the total is divided by the
number of lines, and the result is clamped to `[0, 10]`. -/
def claimedComplexity (content : String) : ℚ :=
  max (0 : ℚ) (min
    (((1 : ℚ) + (1 / 2 : ℚ) * (((((splitLines content.data).map String.mk).filter
      (fun line => complexity_keywords.any
        (fun k => hasSubstr k.data (pyLower (pyStrip line)).data))).length : ℕ) : ℚ))
      / ((((splitLines content.data).map String.mk).length : ℕ) : ℚ))
    (10 : ℚ))

/-! ## Size splitting: `TreeSitterParser._split_chunk` and
`TreeSitterParser._split_large_chunks` -/

/-- Sub-chunk construction inside `_split_chunk`: inherits the parent's
metadata, takes id suffix `_part_k`, line range from `start_line`, and a
proportionally scaled complexity score.  Fields not passed to the
`CodeChunk` constructor there (`docstring`, `dependencies`, `context`)
take their dataclass defaults. -/
def mkSubChunk (c : CodeChunk) (total : Nat) (cur : List (List Char))
    (startLine k : Nat) : CodeChunk :=
  { id := c.id ++ "_part_" ++ toString k
    content := String.mk (joinNL cur)
    chunk_type := c.chunk_type
    language := c.language
    file_path := c.file_path
    line_start := startLine
    line_end := startLine + cur.length - 1
    function_name := c.function_name
    class_name := c.class_name
    module_name := c.module_name
    complexity_score := c.complexity_score * ((cur.length : ℚ) / (total : ℚ)) }

/-- The accumulation loop of `_split_chunk`: `rest` are the lines not yet
consumed, `i` the index of the next line (Python's `enumerate` index),
`cur`/`size` the pending `current_content`/`current_size`, `startLine` the
pending sub-chunk's first line number and `k` the number of sub-chunks
emitted so far (`len(sub_chunks)`). -/
def splitChunkLoop (c : CodeChunk) (m total : Nat) :
    List (List Char) → Nat → List (List Char) → Nat → Nat → Nat → List CodeChunk
  | [], _, cur, _, startLine, k =>
    if cur.isEmpty then [] else [mkSubChunk c total cur startLine k]
  | line :: rest, i, cur, size, startLine, k =>
    if size + line.length > m ∧ ¬ cur.isEmpty then
      mkSubChunk c total cur startLine k ::
        splitChunkLoop c m total rest (i + 1) [line] line.length
          (c.line_start + i) (k + 1)
    else
      splitChunkLoop c m total rest (i + 1) (cur ++ [line])
        (size + line.length) startLine k

/-- `TreeSitterParser._split_chunk`: split one chunk at line boundaries
(`lines = chunk.content.split('\n')`, then the accumulation loop). -/
def _split_chunk (c : CodeChunk) (m : Nat) : List CodeChunk :=
  splitChunkLoop c m (splitLines c.content.data).length
    (splitLines c.content.data) 0 [] 0 c.line_start 0

/-- `TreeSitterParser._split_large_chunks`: chunks of content length at
most `max_size` are kept, larger ones are replaced by their split. -/
def _split_large_chunks (chunks : List CodeChunk) (m : Nat) : List CodeChunk :=
  chunks.flatMap (fun c => if c.content.length ≤ m then [c] else _split_chunk c m)

/-- Number of lines of a string (Python `len(s.split('\n'))`). -/
def numLines (s : String) : Nat := (splitLines s.data).length

/-- Sum of the line lengths of a string (its length not counting the
newline separators). -/
def sumLineLens (s : String) : Nat := ((splitLines s.data).map List.length).sum

/-- Consecutive coverage: `tiles cs s e` says the line ranges of `cs`
exactly tile the interval from line `s` up to (but excluding) line `e`,
each chunk starting right after its predecessor ends. -/
def tiles : List CodeChunk → Nat → Nat → Prop
  | [], s, e => s = e
  | c :: rest, s, e => c.line_start = s ∧ tiles rest (c.line_end + 1) e

theorem joinWithChar_cons_of_ne_nil (sep : Char) (x : List Char)
    (ys : List (List Char)) (h : ys ≠ []) :
    joinWithChar sep (x :: ys) = x ++ sep :: joinWithChar sep ys := by
  cases ys with
  | nil => exact absurd rfl h
  | cons y ys' => rfl

theorem joinNL_cons_of_ne_nil (x : List Char) (ys : List (List Char))
    (h : ys ≠ []) : joinNL (x :: ys) = x ++ '\n' :: joinNL ys :=
  joinWithChar_cons_of_ne_nil '\n' x ys h

theorem joinNL_append_cons (xs : List (List Char)) (y : List Char)
    (ys : List (List Char)) (hxs : xs ≠ []) :
    joinNL (xs ++ y :: ys) = joinNL xs ++ '\n' :: joinNL (y :: ys) := by
  induction xs with
  | nil => exact absurd rfl hxs
  | cons x xs ih =>
    cases xs with
    | nil => rfl
    | cons x' xs' =>
      have h1 : ((x :: x' :: xs') ++ y :: ys) = x :: ((x' :: xs') ++ y :: ys) := rfl
      rw [h1, joinNL_cons_of_ne_nil _ _ (by simp), ih (by simp),
        joinNL_cons_of_ne_nil x (x' :: xs') (by simp)]
      simp [List.append_assoc]

theorem String_eq_of_data_eq {s t : String} (h : s.data = t.data) : s = t := by
  cases s; cases t; exact congrArg String.mk h

/-- Main loop invariant for `_split_chunk`: from any reachable loop state
(pending lines `cur` nonempty, `startLine` consistent with the enumerate
index `i`), the emitted sub-chunks are nonempty, their joined contents are
the join of the pending and remaining lines, and their line ranges tile
the remaining interval. -/
theorem splitChunkLoop_cover (c : CodeChunk) (m total : Nat) :
    ∀ (rest : List (List Char)) (i : Nat) (cur : List (List Char))
      (size startLine k : Nat),
    cur ≠ [] → startLine + cur.length = c.line_start + i →
    splitChunkLoop c m total rest i cur size startLine k ≠ [] ∧
    joinNL ((splitChunkLoop c m total rest i cur size startLine k).map
      (fun s => s.content.data)) = joinNL (cur ++ rest) ∧
    tiles (splitChunkLoop c m total rest i cur size startLine k) startLine
      (c.line_start + i + rest.length) := by
  intro rest
  induction rest with
  | nil =>
    intro i cur size startLine k hcur hinv
    have hce : cur.isEmpty = false := by
      cases cur with
      | nil => exact absurd rfl hcur
      | cons _ _ => rfl
    simp only [splitChunkLoop, hce, Bool.false_eq_true, if_false]
    refine ⟨by simp, ?_, ?_⟩
    · simp only [List.map_cons, List.map_nil, List.append_nil]
      rfl
    · have hlen : 1 ≤ cur.length := by
        cases cur with
        | nil => exact absurd rfl hcur
        | cons _ _ => simp
      refine ⟨rfl, ?_⟩
      show (mkSubChunk c total cur startLine k).line_end + 1 = c.line_start + i + 0
      show startLine + cur.length - 1 + 1 = c.line_start + i + 0
      omega
  | cons line rest ih =>
    intro i cur size startLine k hcur hinv
    have hce : cur.isEmpty = false := by
      cases cur with
      | nil => exact absurd rfl hcur
      | cons _ _ => rfl
    by_cases hbr : size + line.length > m ∧ ¬ cur.isEmpty
    · simp only [splitChunkLoop, if_pos hbr]
      obtain ⟨ihne, ihjoin, ihtiles⟩ :=
        ih (i + 1) [line] line.length (c.line_start + i) (k + 1)
          (by simp) (by simp only [List.length_cons, List.length_nil]; omega)
      refine ⟨by simp, ?_, ?_⟩
      · simp only [List.map_cons]
        rw [joinNL_cons_of_ne_nil _ _ (by simpa using ihne), ihjoin,
          joinNL_append_cons cur line rest hcur]
        rfl
      · refine ⟨rfl, ?_⟩
        have hle : (mkSubChunk c total cur startLine k).line_end + 1
            = c.line_start + i := by
          show startLine + cur.length - 1 + 1 = c.line_start + i
          have : 1 ≤ cur.length := by
            cases cur with
            | nil => exact absurd rfl hcur
            | cons _ _ => simp
          omega
        rw [hle]
        have he : c.line_start + (i + 1) + rest.length
            = c.line_start + i + (line :: rest).length := by
          simp [List.length_cons]
          omega
        rw [← he]
        exact ihtiles
    · simp only [splitChunkLoop, if_neg hbr]
      obtain ⟨ihne, ihjoin, ihtiles⟩ :=
        ih (i + 1) (cur ++ [line]) (size + line.length) startLine k
          (by simp) (by simp; omega)
      refine ⟨ihne, ?_, ?_⟩
      · rw [ihjoin]
        simp [List.append_assoc]
      · have he : c.line_start + (i + 1) + rest.length
            = c.line_start + i + (line :: rest).length := by
          simp [List.length_cons]
          omega
        rw [← he]
        exact ihtiles

/-- C1: splitting a chunk by size yields a nonempty list of sub-chunks
whose contents joined with newlines reconstruct the parent content and
whose line ranges consecutively tile the parent's line range. -/
theorem split_chunk_reconstructs (c : CodeChunk) (m : Nat)
    (hbig : c.content.length > m)
    (hwf : c.line_end + 1 = c.line_start + numLines c.content) :
    _split_chunk c m ≠ [] ∧
    joinNLStrings ((_split_chunk c m).map (fun s => s.content)) = c.content ∧
    tiles (_split_chunk c m) c.line_start (c.line_end + 1) := by
  have hlines : splitLines c.content.data ≠ [] := splitLines_ne_nil _
  unfold _split_chunk
  cases hsp : splitLines c.content.data with
  | nil => exact absurd hsp hlines
  | cons l ls =>
    have hstep : splitChunkLoop c m (l :: ls).length (l :: ls) 0 [] 0 c.line_start 0
        = splitChunkLoop c m (l :: ls).length ls 1 [l] l.length c.line_start 0 := by
      simp [splitChunkLoop]
    rw [hstep]
    obtain ⟨hne, hjoin, htiles⟩ :=
      splitChunkLoop_cover c m (l :: ls).length ls 1 [l] l.length c.line_start 0
        (by simp) (by simp)
    refine ⟨hne, ?_, ?_⟩
    · apply String_eq_of_data_eq
      rw [data_joinNLStrings, List.map_map]
      have hcomp : (String.data ∘ fun s : CodeChunk => s.content)
          = fun s : CodeChunk => s.content.data := rfl
      rw [hcomp, hjoin]
      show joinNL (l :: ls) = _
      rw [← hsp, joinNL_splitLines]
    · have hnl : numLines c.content = ls.length + 1 := by
        unfold numLines
        rw [hsp]
        simp
      have : c.line_end + 1 = c.line_start + 1 + ls.length := by
        rw [hwf, hnl]; omega
      rw [this]
      exact htiles

/-- Example oversized chunk for exercising `_split_chunk` concretely. -/
def c1SampleChunk : CodeChunk :=
  { id := "chunk", content := "ab\ncd\nef", chunk_type := .function,
    language := "python", file_path := "f.py", line_start := 1, line_end := 3 }

/-- Witness for `split_chunk_reconstructs` at a concrete oversized chunk. -/
theorem split_chunk_reconstructs_witness :
    (c1SampleChunk.content.length > 3 ∧
      c1SampleChunk.line_end + 1
        = c1SampleChunk.line_start + numLines c1SampleChunk.content) ∧
    (_split_chunk c1SampleChunk 3 ≠ [] ∧
      joinNLStrings ((_split_chunk c1SampleChunk 3).map (fun s => s.content))
        = c1SampleChunk.content ∧
      tiles (_split_chunk c1SampleChunk 3) c1SampleChunk.line_start
        (c1SampleChunk.line_end + 1)) :=
  ⟨⟨by decide, by decide⟩,
    split_chunk_reconstructs c1SampleChunk 3 (by decide) (by decide)⟩

/-- An emitted sub-chunk is a single line or its line lengths sum to at
most the size limit. -/
theorem mkSubChunk_bound (c : CodeChunk) (total : Nat) (cur : List (List Char))
    (startLine k m size : Nat) (hcur : cur ≠ [])
    (hfree : ∀ l ∈ cur, '\n' ∉ l)
    (hsize : size = (cur.map List.length).sum)
    (hbound : 2 ≤ cur.length → size ≤ m) :
    numLines (mkSubChunk c total cur startLine k).content = 1 ∨
      sumLineLens (mkSubChunk c total cur startLine k).content ≤ m := by
  have hdata : (mkSubChunk c total cur startLine k).content.data = joinNL cur := rfl
  have hsp : splitLines (joinNL cur) = cur := splitLines_joinNL cur hcur hfree
  rcases Nat.lt_or_ge cur.length 2 with h | h
  · left
    unfold numLines
    rw [hdata, hsp]
    have : cur.length ≠ 0 := by
      cases cur with
      | nil => exact absurd rfl hcur
      | cons _ _ => simp
    omega
  · right
    unfold sumLineLens
    rw [hdata, hsp, ← hsize]
    exact hbound h

/-- Loop invariant for the size bound of `_split_chunk`: the pending
`current_size` equals the summed lengths of the pending lines and, as
soon as at least two lines are pending, stays at or below the limit. -/
theorem splitChunkLoop_line_bound (c : CodeChunk) (m total : Nat) :
    ∀ (rest : List (List Char)) (i : Nat) (cur : List (List Char))
      (size startLine k : Nat),
    (∀ l ∈ cur, '\n' ∉ l) → (∀ l ∈ rest, '\n' ∉ l) →
    size = (cur.map List.length).sum →
    (2 ≤ cur.length → size ≤ m) →
    ∀ sub ∈ splitChunkLoop c m total rest i cur size startLine k,
      numLines sub.content = 1 ∨ sumLineLens sub.content ≤ m := by
  intro rest
  induction rest with
  | nil =>
    intro i cur size startLine k hfree hrest hsize hbound sub hsub
    by_cases hce : cur.isEmpty
    · simp [splitChunkLoop, hce] at hsub
    · have hcur : cur ≠ [] := by
        cases cur with
        | nil => simp at hce
        | cons _ _ => simp
      rw [show splitChunkLoop c m total [] i cur size startLine k
            = [mkSubChunk c total cur startLine k] by
          simp [splitChunkLoop, hce]] at hsub
      have : sub = mkSubChunk c total cur startLine k := by simpa using hsub
      subst this
      exact mkSubChunk_bound c total cur startLine k m size hcur hfree hsize hbound
  | cons line rest ih =>
    intro i cur size startLine k hfree hrest hsize hbound sub hsub
    have hlinefree : '\n' ∉ line := hrest line (by simp)
    have hrest' : ∀ l ∈ rest, '\n' ∉ l := fun l hl => hrest l (by simp [hl])
    by_cases hbr : size + line.length > m ∧ ¬ cur.isEmpty
    · rw [show splitChunkLoop c m total (line :: rest) i cur size startLine k
            = mkSubChunk c total cur startLine k ::
              splitChunkLoop c m total rest (i + 1) [line] line.length
                (c.line_start + i) (k + 1) by
          simp [splitChunkLoop, hbr]] at hsub
      have hcur : cur ≠ [] := by
        rcases hbr with ⟨_, h2⟩
        cases cur with
        | nil => simp at h2
        | cons _ _ => simp
      rcases List.mem_cons.mp hsub with h | h
      · subst h
        exact mkSubChunk_bound c total cur startLine k m size hcur hfree hsize hbound
      · exact ih (i + 1) [line] line.length (c.line_start + i) (k + 1)
          (by simpa using hlinefree) hrest' (by simp)
          (by intro h2; simp at h2) sub h
    · rw [show splitChunkLoop c m total (line :: rest) i cur size startLine k
            = splitChunkLoop c m total rest (i + 1) (cur ++ [line])
              (size + line.length) startLine k by
          simp only [splitChunkLoop]
          rw [if_neg hbr]] at hsub
      refine ih (i + 1) (cur ++ [line]) (size + line.length) startLine k
        ?_ hrest' ?_ ?_ sub hsub
      · intro l hl
        rcases List.mem_append.mp hl with h | h
        · exact hfree l h
        · simp at h
          subst h
          exact hlinefree
      · simp [hsize]
      · intro h2
        by_cases hcur : cur = []
        · subst hcur
          simp at h2
        · have : ¬ size + line.length > m := by
            intro hgt
            exact hbr ⟨hgt, by cases cur with
              | nil => exact absurd rfl hcur
              | cons _ _ => simp⟩
          omega

/-- C2 (amended): every chunk produced by `_split_large_chunks` either is
a single line (an over-long line is never split) or has line lengths
summing to at most `max_size`; the content itself can exceed `max_size`
by the number of newline separators. -/
theorem split_large_chunks_size_bound (chunks : List CodeChunk) (m : Nat) :
    ∀ sub ∈ _split_large_chunks chunks m,
      numLines sub.content = 1 ∨ sumLineLens sub.content ≤ m := by
  intro sub hsub
  unfold _split_large_chunks at hsub
  rw [List.mem_flatMap] at hsub
  obtain ⟨c, _, hsub⟩ := hsub
  by_cases hlen : c.content.length ≤ m
  · rw [if_pos hlen] at hsub
    have : sub = c := by simpa using hsub
    subst this
    right
    calc sumLineLens sub.content ≤ sub.content.data.length :=
          splitOnChar_sum_le '\n' _
      _ = sub.content.length := rfl
      _ ≤ m := hlen
  · rw [if_neg hlen] at hsub
    unfold _split_chunk at hsub
    exact splitChunkLoop_line_bound c m _ _ 0 [] 0 c.line_start 0
      (by simp) (fun l hl => splitOnChar_no_sep '\n' _ l hl) rfl
      (fun _ => Nat.zero_le m) sub hsub

/-- A one-line chunk, small enough to be kept whole by size splitting. -/
def c2KeptChunk : CodeChunk :=
  { id := "w", content := "x", chunk_type := .function,
    language := "python", file_path := "f.py", line_start := 1, line_end := 1 }

/-- A 5-character, 3-line chunk that an over-tight limit must split. -/
def c2BigChunk : CodeChunk :=
  { id := "c", content := "a\na\na", chunk_type := .function,
    language := "python", file_path := "f.py", line_start := 1, line_end := 3 }

/-- Witness for `split_large_chunks_size_bound`: a small chunk is kept
unchanged and satisfies the bound. -/
theorem split_large_chunks_size_bound_witness :
    numLines c2KeptChunk.content = 1 ∨ sumLineLens c2KeptChunk.content ≤ 5 :=
  split_large_chunks_size_bound [c2KeptChunk] 5 _ (List.Mem.head _)

/-- Counterexample to C2 as stated: a 5-character chunk split with
`max_size = 2` produces a first sub-chunk of content `"a\na"`, whose
length 3 exceeds the limit (the splitter counts line lengths only, not
the newline separators it re-inserts). -/
theorem split_large_chunks_counterexample :
    ((_split_large_chunks [c2BigChunk] 2).map (fun s => s.content))
      = ["a\na", "a"] ∧ ¬ ("a\na".length ≤ 2) := by
  exact ⟨by decide, by decide⟩

/-- Total number of (line, keyword) occurrence pairs in a content string. -/
def totalKeywordHits (content : String) : Nat :=
  (((splitLines content.data).map String.mk).map lineKeywordCount).sum

theorem foldl_half_add (ls : List String) (a : ℚ) :
    ls.foldl (fun (sc : ℚ) line => sc + (1 / 2 : ℚ) * (lineKeywordCount line : ℚ)) a
      = a + (1 / 2) * ((ls.map lineKeywordCount).sum : ℚ) := by
  induction ls generalizing a with
  | nil => simp
  | cons x xs ih =>
    simp only [List.foldl_cons, ih, List.map_cons, List.sum_cons]
    push_cast
    ring

/-- C9 (amended): the complexity score is `(1 + 0.5·H) / L` capped at 10,
where `H` counts (line, keyword) occurrence pairs — one per keyword that
occurs in a line, not one per matching line — and `L` is the line count;
the result always lies in `[0, 10]`. -/
theorem calculate_complexity_formula (content : String) :
    _calculate_complexity content
      = min ((1 + (1 / 2) * (totalKeywordHits content : ℚ))
          / (numLines content : ℚ)) 10 ∧
    0 ≤ _calculate_complexity content ∧ _calculate_complexity content ≤ 10 := by
  have hlen : ((splitLines content.data).map String.mk).length
      = numLines content := by
    simp [numLines]
  have hne : 1 ≤ numLines content := by
    unfold numLines
    cases h : splitLines content.data with
    | nil => exact absurd h (splitLines_ne_nil _)
    | cons _ _ => simp
  have hmax : max ((splitLines content.data).map String.mk).length 1
      = numLines content := by
    rw [hlen]; omega
  have heq : _calculate_complexity content
      = min ((1 + (1 / 2) * (totalKeywordHits content : ℚ))
          / (numLines content : ℚ)) 10 := by
    unfold _calculate_complexity
    rw [foldl_half_add, hmax]
    rfl
  refine ⟨heq, ?_, ?_⟩
  · rw [heq]
    refine le_min ?_ (by norm_num)
    apply div_nonneg
    · positivity
    · positivity
  · rw [heq]
    exact min_le_right _ _

/-- Counterexample to C9 as stated: on the single line `"elif x:"` the
code counts two keyword hits (`"if"` is a substring of `"elif"`) and
returns 2.0, while the claimed per-line formula yields 1.5. -/
theorem calculate_complexity_counterexample :
    _calculate_complexity "elif x:" = 2 ∧ claimedComplexity "elif x:" = 3 / 2 ∧
    (2 : ℚ) ≠ 3 / 2 := by
  have h1 : (splitLines "elif x:".data).map String.mk = ["elif x:"] := by decide
  have h2 : lineKeywordCount "elif x:" = 2 := by decide
  have h3 : (complexity_keywords.any
      (fun k => hasSubstr k.data (pyLower (pyStrip "elif x:")).data)) = true := by
    decide
  refine ⟨?_, ?_, by norm_num⟩
  · unfold _calculate_complexity
    rw [h1]
    simp only [List.foldl_cons, List.foldl_nil, List.length_cons,
      List.length_nil, h2]
    norm_num
  · unfold claimedComplexity
    rw [h1]
    simp only [List.filter_cons, h3, if_true, List.filter_nil,
      List.length_cons, List.length_nil]
    norm_num

/-! ## Language detection: `TreeSitterParser._detect_language` and
`TreeSitterParser.parse_file` (src/indexer/parsers/tree_sitter_parser.py,
extension table from src/indexer/parsers/language_configs.py) -/

/-- The `extensions` lists of `LANGUAGE_CONFIGS`, in dict insertion
order. -/
def languageConfigsExtensions : List (String × List String) :=
  [("python", [".py", ".pyw", ".pyi"]),
   ("javascript", [".js", ".jsx", ".mjs", ".cjs"]),
   ("typescript", [".ts", ".tsx", ".d.ts"]),
   ("java", [".java"]),
   ("cpp", [".cpp", ".cc", ".cxx", ".c++", ".c", ".h", ".hpp", ".hxx", ".h++"]),
   ("rust", [".rs"]),
   ("go", [".go"]),
   ("php", [".php", ".phtml", ".php3", ".php4", ".php5", ".phps"]),
   ("ruby", [".rb", ".rbw", ".rake", ".gemspec"]),
   ("csharp", [".cs"])]

/-- The final path component (pathlib `Path(p).name`): the last nonempty
segment between `/` separators. -/
def pathName (p : String) : List Char :=
  (((splitOnChar '/' p.data).filter (fun l => l ≠ [])).getLast?).getD []

/-- pathlib `Path(p).suffix`: the part of the name from its last dot,
empty when the name has no dot, starts with its only dot, or ends in a
dot. -/
def pathSuffix (p : String) : String :=
  let name := pathName p
  let tail := (name.reverse.takeWhile (fun c => c ≠ '.')).length
  if tail < name.length then
    if 0 < name.length - tail - 1 ∧ name.length - tail - 1 < name.length - 1 then
      String.mk (name.drop (name.length - tail - 1))
    else ""
  else ""

/-- `TreeSitterParser._detect_language`: lowercase the path's suffix and
return the first language whose `extensions` list contains it. -/
def _detect_language (file_path : String) : Option String :=
  (languageConfigsExtensions.find?
    (fun lc => lc.2.contains (pyLower (pathSuffix file_path)))).map
    (fun lc => lc.1)

/-- `TreeSitterParser.parse_file`, with the file's text supplied as
`content` (the Python method reads it from disk), the set of loaded
tree-sitter parsers as `parsers`, and the two parse strategies as
function parameters: unknown language or blank content give `[]`,
otherwise the matching strategy runs. -/
def parse_file (tsParse fallbackParse : String → String → String → Nat → List CodeChunk)
    (parsers : List String) (file_path content : String)
    (max_chunk_size : Nat) : List CodeChunk :=
  match _detect_language file_path with
  | none => []
  | some language =>
    if pyStrip content = "" then []
    else if parsers.contains language then
      tsParse file_path content language max_chunk_size
    else fallbackParse file_path content language max_chunk_size

/-- C10: language detection depends only on the lowercased path suffix
(so `.PY` and `.py` agree), the uppercase variant maps to `python`, and a
path whose lowercased suffix matches no configured extension yields
`none`, which forces `parse_file` to return no chunks. -/
theorem detect_language_case_insensitive :
    (∀ p q : String, pyLower (pathSuffix p) = pyLower (pathSuffix q) →
      _detect_language p = _detect_language q) ∧
    _detect_language "a.PY" = some "python" ∧
    _detect_language "a.py" = some "python" ∧
    (∀ (tsParse fallbackParse : String → String → String → Nat → List CodeChunk)
      (parsers : List String) (p content : String) (m : Nat),
      _detect_language p = none →
      parse_file tsParse fallbackParse parsers p content m = []) := by
  refine ⟨?_, by decide, by decide, ?_⟩
  · intro p q h
    unfold _detect_language
    rw [h]
  · intro tsParse fallbackParse parsers p content m h
    unfold parse_file
    rw [h]

/-- Witness for `detect_language_case_insensitive` at concrete paths. -/
theorem detect_language_case_insensitive_witness :
    _detect_language "src/App.PY" = _detect_language "lib/app.py" ∧
    parse_file (fun _ _ _ _ => []) (fun _ _ _ _ => []) ["python"]
      "README.txt" "some text" 500 = [] :=
  ⟨detect_language_case_insensitive.1 "src/App.PY" "lib/app.py" (by decide),
    detect_language_case_insensitive.2.2.2 (fun _ _ _ _ => [])
      (fun _ _ _ _ => []) ["python"] "README.txt" "some text" 500 (by decide)⟩

/-! ## Embedding service (src/indexer/embeddings/sentence_transformer.py)

The sentence-transformer model and the md5 digest are external
collaborators: they enter as parameters `encode` (one vector per input
text, deterministic) and `hash`.  Vectors are opaque values, modelled as
`List Int`. -/

/-- One optional labelled part of the embedding text: Python appends
`f"...: {value}"` only when the attribute is truthy (neither `None` nor
empty). -/
def optPart (label : String) (v : Option String) : List String :=
  match v with
  | some s => if s = "" then [] else [label ++ s]
  | none => []

/-- An optional two-line section (`"Documentation:"`/`"Context:"` header
plus the value), appended only when the attribute is truthy. -/
def optSection (label : String) (v : Option String) : List String :=
  match v with
  | some s => if s = "" then [] else [label, s]
  | none => []

/-- `EmbeddingService._create_embedding_text`: the deterministic text fed
to the embedding model — language, optional structural names, chunk type,
content, then optional docstring and context, joined by newlines.  It
uses neither `file_path` nor `id`. -/
def _create_embedding_text (c : CodeChunk) : String :=
  joinNLStrings
    (["Language: " ++ c.language]
      ++ optPart "Function: " c.function_name
      ++ optPart "Class: " c.class_name
      ++ optPart "Module: " c.module_name
      ++ ["Type: " ++ c.chunk_type.value, "Code:", c.content]
      ++ optSection "Documentation:" c.docstring
      ++ optSection "Context:" c.context)

/-- The in-memory embedding cache `_embedding_cache`: hash → vector. -/
abbrev EmbCache := List (String × List Int)

/-- Dict lookup `self._embedding_cache.get(text_hash)`. -/
def cacheLookup (cache : EmbCache) (h : String) : Option (List Int) :=
  (cache.find? (fun e => e.1 = h)).map (fun e => e.2)

/-- Dict assignment `self._embedding_cache[text_hash] = embedding`:
overwrite in place if present, else append. -/
def cacheInsert (cache : EmbCache) (h : String) (v : List Int) : EmbCache :=
  if (cache.find? (fun e => e.1 = h)).isSome then
    cache.map (fun e => if e.1 = h then (h, v) else e)
  else cache ++ [(h, v)]

/-- The batch loop `for i in range(0, len(texts), batch_size)` with
`batch_size = 32`, extending `all_embeddings` with the model's output for
each slice. -/
def encodeInBatches (encode : String → List Int) : List String → List (List Int)
  | [] => []
  | t :: ts =>
    ((t :: ts).take 32).map encode ++ encodeInBatches encode ((t :: ts).drop 32)
termination_by l => l.length
decreasing_by simp [List.length_drop]; omega

/-- The first loop of `generate_embeddings`: for each chunk compute the
embedding text and its hash; cache hits collect `(chunk_id, embedding)`,
misses collect the text (for the model) and `(chunk_id, text_hash)`.
All lookups hit the cache as it was at entry, since new embeddings are
only written after this loop. -/
def scanChunks (hash : String → String) (cache : EmbCache) :
    List CodeChunk →
      List (String × List Int) × List String × List (String × String)
  | [] => ([], [], [])
  | c :: cs =>
    let t := _create_embedding_text c
    let r := scanChunks hash cache cs
    match cacheLookup cache (hash t) with
    | some v => ((c.id, v) :: r.1, r.2.1, r.2.2)
    | none => (r.1, t :: r.2.1, (c.id, hash t) :: r.2.2)

/-- The second loop of `generate_embeddings`: zip the pending
`(chunk_id, text_hash)` pairs with the freshly computed embeddings,
writing each into the cache and collecting the new results. -/
def insertNew (cache : EmbCache) :
    List ((String × String) × List Int) → EmbCache × List (String × List Int)
  | [] => (cache, [])
  | (ih, v) :: rest =>
    let r := insertNew (cacheInsert cache ih.2 v) rest
    (r.1, (ih.1, v) :: r.2)

/-- Result of one `generate_embeddings` call: the returned
`(chunk_id, embedding)` list, the cache afterwards, and the texts that
were actually sent to the model. -/
structure EmbedOutcome where
  results : List (String × List Int)
  cache : EmbCache
  modelTexts : List String

/-- `EmbeddingService.generate_embeddings` (model initialized): cache
hits are collected first, misses are encoded in batches of 32 and then
cached, and the returned list is `cached_embeddings + new_embeddings`. -/
def generate_embeddings (hash : String → String) (encode : String → List Int)
    (cache : EmbCache) (chunks : List CodeChunk) : EmbedOutcome :=
  { results := (scanChunks hash cache chunks).1
      ++ (insertNew cache ((scanChunks hash cache chunks).2.2.zip
            (encodeInBatches encode (scanChunks hash cache chunks).2.1))).2
    cache := (insertNew cache ((scanChunks hash cache chunks).2.2.zip
            (encodeInBatches encode (scanChunks hash cache chunks).2.1))).1
    modelTexts := (scanChunks hash cache chunks).2.1 }

/-- Batched encoding equals encoding every text: the model is applied
once to each text, in order, regardless of batch boundaries. -/
theorem encodeInBatches_eq (encode : String → List Int) :
    ∀ texts : List String, encodeInBatches encode texts = texts.map encode := by
  have H : ∀ (n : Nat) (texts : List String), texts.length ≤ n →
      encodeInBatches encode texts = texts.map encode := by
    intro n
    induction n with
    | zero =>
      intro texts h
      cases texts with
      | nil => simp [encodeInBatches]
      | cons t ts => simp at h
    | succ n ih =>
      intro texts h
      cases texts with
      | nil => simp [encodeInBatches]
      | cons t ts =>
        rw [encodeInBatches]
        rw [ih ((t :: ts).drop 32) (by simp at h ⊢; omega)]
        rw [← List.map_append, List.take_append_drop]
  intro texts
  exact H texts.length texts le_rfl

theorem scanChunks_hits_ids (hash : String → String) (cache : EmbCache)
    (chunks : List CodeChunk) :
    (scanChunks hash cache chunks).1.map Prod.fst
      = (chunks.filter (fun c =>
          (cacheLookup cache (hash (_create_embedding_text c))).isSome)).map
          (fun c => c.id) := by
  induction chunks with
  | nil => rfl
  | cons c cs ih =>
    simp only [scanChunks]
    cases hl : cacheLookup cache (hash (_create_embedding_text c)) with
    | none => simpa [List.filter_cons, hl] using ih
    | some v => simpa [List.filter_cons, hl] using ih

theorem scanChunks_texts (hash : String → String) (cache : EmbCache)
    (chunks : List CodeChunk) :
    (scanChunks hash cache chunks).2.1
      = (chunks.filter (fun c =>
          (cacheLookup cache (hash (_create_embedding_text c))).isNone)).map
          _create_embedding_text := by
  induction chunks with
  | nil => rfl
  | cons c cs ih =>
    simp only [scanChunks]
    cases hl : cacheLookup cache (hash (_create_embedding_text c)) with
    | none => simpa [List.filter_cons, hl] using ih
    | some v => simpa [List.filter_cons, hl] using ih

theorem scanChunks_missIds (hash : String → String) (cache : EmbCache)
    (chunks : List CodeChunk) :
    (scanChunks hash cache chunks).2.2.map Prod.fst
      = (chunks.filter (fun c =>
          (cacheLookup cache (hash (_create_embedding_text c))).isNone)).map
          (fun c => c.id) := by
  induction chunks with
  | nil => rfl
  | cons c cs ih =>
    simp only [scanChunks]
    cases hl : cacheLookup cache (hash (_create_embedding_text c)) with
    | none => simpa [List.filter_cons, hl] using ih
    | some v => simpa [List.filter_cons, hl] using ih

theorem scanChunks_missIds_length (hash : String → String) (cache : EmbCache)
    (chunks : List CodeChunk) :
    (scanChunks hash cache chunks).2.2.length
      = (scanChunks hash cache chunks).2.1.length := by
  induction chunks with
  | nil => rfl
  | cons c cs ih =>
    simp only [scanChunks]
    cases hl : cacheLookup cache (hash (_create_embedding_text c)) with
    | none => simpa using ih
    | some v => simpa using ih

theorem insertNew_ids (pairs : List ((String × String) × List Int)) :
    ∀ cache : EmbCache,
      (insertNew cache pairs).2.map Prod.fst = pairs.map (fun p => p.1.1) := by
  induction pairs with
  | nil => intro cache; rfl
  | cons p ps ih =>
    intro cache
    simp only [insertNew, List.map_cons]
    rw [ih]

/-- C6 (amended): `generate_embeddings` returns exactly one pair per
input chunk — the ids returned are a permutation of the input ids — but
the order is cache hits first (in input order) followed by fresh
computations (in input order), not the overall input order. -/
theorem generate_embeddings_order (hash : String → String)
    (encode : String → List Int) (cache : EmbCache) (chunks : List CodeChunk) :
    (generate_embeddings hash encode cache chunks).results.map Prod.fst
      = (chunks.filter (fun c =>
            (cacheLookup cache (hash (_create_embedding_text c))).isSome)).map
            (fun c => c.id)
        ++ (chunks.filter (fun c =>
            (cacheLookup cache (hash (_create_embedding_text c))).isNone)).map
            (fun c => c.id) ∧
    ((generate_embeddings hash encode cache chunks).results.map Prod.fst).Perm
      (chunks.map (fun c => c.id)) := by
  have hmain : (generate_embeddings hash encode cache chunks).results.map Prod.fst
      = (chunks.filter (fun c =>
            (cacheLookup cache (hash (_create_embedding_text c))).isSome)).map
            (fun c => c.id)
        ++ (chunks.filter (fun c =>
            (cacheLookup cache (hash (_create_embedding_text c))).isNone)).map
            (fun c => c.id) := by
    show ((scanChunks hash cache chunks).1
        ++ (insertNew cache _).2).map Prod.fst = _
    rw [List.map_append, scanChunks_hits_ids, insertNew_ids]
    congr 1
    have hlen : (scanChunks hash cache chunks).2.2.length
        ≤ (encodeInBatches encode (scanChunks hash cache chunks).2.1).length := by
      rw [encodeInBatches_eq, List.length_map, scanChunks_missIds_length]
    calc ((scanChunks hash cache chunks).2.2.zip
            (encodeInBatches encode (scanChunks hash cache chunks).2.1)).map
            (fun p => p.1.1)
        = (((scanChunks hash cache chunks).2.2.zip
            (encodeInBatches encode (scanChunks hash cache chunks).2.1)).map
            Prod.fst).map Prod.fst := by
          rw [List.map_map]; rfl
      _ = (scanChunks hash cache chunks).2.2.map Prod.fst := by
          rw [List.map_fst_zip _ _ hlen]
      _ = _ := scanChunks_missIds hash cache chunks
  refine ⟨hmain, ?_⟩
  rw [hmain, ← List.map_append]
  refine List.Perm.map _ ?_
  have hperm := List.filter_append_perm (fun c =>
    (cacheLookup cache (hash (_create_embedding_text c))).isSome) chunks
  have hpred : chunks.filter (fun c =>
        !(cacheLookup cache (hash (_create_embedding_text c))).isSome)
      = chunks.filter (fun c =>
        (cacheLookup cache (hash (_create_embedding_text c))).isNone) := by
    apply List.filter_congr
    intro c _
    cases hl : cacheLookup cache (hash (_create_embedding_text c)) <;> simp [hl]
  rw [hpred] at hperm
  exact hperm

/-- A chunk whose embedding text is not in the starting cache. -/
def c6ChunkA : CodeChunk :=
  { id := "a", content := "x = 1", chunk_type := .«variable»,
    language := "python", file_path := "f.py", line_start := 1, line_end := 1 }

/-- A chunk whose embedding text is pre-seeded in the cache. -/
def c6ChunkB : CodeChunk :=
  { id := "b", content := "y = 2", chunk_type := .«variable»,
    language := "python", file_path := "g.py", line_start := 1, line_end := 1 }

/-- Counterexample to C6 as stated: with chunk `a` uncached and chunk `b`
cached, the returned ids are `["b", "a"]` — cache hits come first — while
the input order is `["a", "b"]`. -/
theorem generate_embeddings_counterexample :
    (generate_embeddings (fun t => t) (fun _ => [0])
        [(_create_embedding_text c6ChunkB, [7])] [c6ChunkA, c6ChunkB]).results.map
        Prod.fst = ["b", "a"] ∧
    [c6ChunkA, c6ChunkB].map (fun c => c.id) = ["a", "b"] ∧
    (["b", "a"] : List String) ≠ ["a", "b"] := by
  refine ⟨?_, by decide, by decide⟩
  simp only [generate_embeddings, encodeInBatches_eq]
  decide

theorem lookupMapUpdate (h : String) (v : List Int) :
    ∀ cache : EmbCache, (cache.find? (fun e => e.1 = h)).isSome = true →
      cacheLookup (cache.map (fun e => if e.1 = h then (h, v) else e)) h
        = some v := by
  intro cache
  induction cache with
  | nil => intro hf; simp at hf
  | cons e es ih =>
    intro hf
    by_cases he : e.1 = h
    · unfold cacheLookup
      rw [List.map_cons, if_pos he, List.find?_cons_of_pos _ (by simp)]
      rfl
    · unfold cacheLookup at ih ⊢
      rw [List.map_cons, if_neg he, List.find?_cons_of_neg _ (by simp [he])]
      apply ih
      rwa [List.find?_cons_of_neg _ (by simp [he])] at hf

theorem lookupAppendMissing (h : String) (v : List Int) :
    ∀ cache : EmbCache, cache.find? (fun e => e.1 = h) = none →
      cacheLookup (cache ++ [(h, v)]) h = some v := by
  intro cache
  induction cache with
  | nil =>
    intro _
    unfold cacheLookup
    rw [List.nil_append, List.find?_cons_of_pos _ (by simp)]
    rfl
  | cons e es ih =>
    intro hf
    by_cases he : e.1 = h
    · rw [List.find?_cons_of_pos _ (by simp [he])] at hf
      simp at hf
    · unfold cacheLookup at ih ⊢
      rw [List.cons_append, List.find?_cons_of_neg _ (by simp [he])]
      apply ih
      rwa [List.find?_cons_of_neg _ (by simp [he])] at hf

/-- Writing a hash into the cache makes a later lookup of that hash
return the written vector. -/
theorem cacheLookup_cacheInsert (cache : EmbCache) (h : String) (v : List Int) :
    cacheLookup (cacheInsert cache h v) h = some v := by
  unfold cacheInsert
  by_cases hf : (cache.find? (fun e => e.1 = h)).isSome
  · rw [if_pos hf]
    exact lookupMapUpdate h v cache hf
  · rw [if_neg hf]
    refine lookupAppendMissing h v cache ?_
    cases hc : cache.find? (fun e => e.1 = h) with
    | none => rfl
    | some x => rw [hc] at hf; simp at hf

/-- C7: chunks agreeing in everything but `file_path` and `id` produce
the same embedding text and hash; embedding one and then the other sends
exactly one text to the model, and the two distinct chunk ids both map to
the one shared cache entry. -/
theorem embedding_cache_dedup (hash : String → String)
    (encode : String → List Int) (cache : EmbCache) (a b : CodeChunk)
    (hid : a.id ≠ b.id)
    (hlang : a.language = b.language) (hkind : a.chunk_type = b.chunk_type)
    (hfn : a.function_name = b.function_name)
    (hcn : a.class_name = b.class_name)
    (hmn : a.module_name = b.module_name)
    (hcont : a.content = b.content)
    (hdoc : a.docstring = b.docstring)
    (hctx : a.context = b.context)
    (hmiss : cacheLookup cache (hash (_create_embedding_text a)) = none) :
    _create_embedding_text a = _create_embedding_text b ∧
    hash (_create_embedding_text a) = hash (_create_embedding_text b) ∧
    (generate_embeddings hash encode cache [a]).modelTexts
      = [_create_embedding_text a] ∧
    (generate_embeddings hash encode
      (generate_embeddings hash encode cache [a]).cache [b]).modelTexts = [] ∧
    (generate_embeddings hash encode cache [a]).results
      = [(a.id, encode (_create_embedding_text a))] ∧
    (generate_embeddings hash encode
      (generate_embeddings hash encode cache [a]).cache [b]).results
      = [(b.id, encode (_create_embedding_text a))] ∧
    a.id ≠ b.id := by
  have htext : _create_embedding_text b = _create_embedding_text a := by
    unfold _create_embedding_text
    rw [← hlang, ← hkind, ← hfn, ← hcn, ← hmn, ← hcont, ← hdoc, ← hctx]
  have h1scan : scanChunks hash cache [a]
      = ([], [_create_embedding_text a],
          [(a.id, hash (_create_embedding_text a))]) := by
    simp only [scanChunks, hmiss]
  have hembs : encodeInBatches encode [_create_embedding_text a]
      = [encode (_create_embedding_text a)] := by
    rw [encodeInBatches_eq]
    rfl
  have hcall1 : generate_embeddings hash encode cache [a]
      = { results := [(a.id, encode (_create_embedding_text a))]
          cache := cacheInsert cache (hash (_create_embedding_text a))
            (encode (_create_embedding_text a))
          modelTexts := [_create_embedding_text a] } := by
    unfold generate_embeddings
    simp only [h1scan, hembs, List.zip_cons_cons, List.zip_nil_right, insertNew,
      List.nil_append]
  have h2scan : scanChunks hash
      (cacheInsert cache (hash (_create_embedding_text a))
        (encode (_create_embedding_text a))) [b]
      = ([(b.id, encode (_create_embedding_text a))], [], []) := by
    simp only [scanChunks, htext, cacheLookup_cacheInsert]
  have hcall2 : generate_embeddings hash encode
      (cacheInsert cache (hash (_create_embedding_text a))
        (encode (_create_embedding_text a))) [b]
      = { results := [(b.id, encode (_create_embedding_text a))]
          cache := cacheInsert cache (hash (_create_embedding_text a))
            (encode (_create_embedding_text a))
          modelTexts := [] } := by
    unfold generate_embeddings
    simp only [h2scan, List.zip_nil_left, insertNew, List.append_nil]
  rw [hcall1]
  refine ⟨htext.symm, ?_, ?_, ?_, ?_, ?_, hid⟩
  · rw [htext]
  · rfl
  · show (generate_embeddings hash encode
        (cacheInsert cache (hash (_create_embedding_text a))
          (encode (_create_embedding_text a))) [b]).modelTexts = []
    rw [hcall2]
  · rfl
  · show (generate_embeddings hash encode
        (cacheInsert cache (hash (_create_embedding_text a))
          (encode (_create_embedding_text a))) [b]).results
      = [(b.id, encode (_create_embedding_text a))]
    rw [hcall2]

/-- A function chunk in one workspace file. -/
def c7ChunkA : CodeChunk :=
  { id := "fa", content := "def f():\n    return 1", chunk_type := .function,
    language := "python", file_path := "a.py", line_start := 1, line_end := 2,
    function_name := some "f" }

/-- The identical function body in a second workspace file: only `id`
and `file_path` differ. -/
def c7ChunkB : CodeChunk :=
  { id := "fb", content := "def f():\n    return 1", chunk_type := .function,
    language := "python", file_path := "b.py", line_start := 1, line_end := 2,
    function_name := some "f" }

/-- Witness for `embedding_cache_dedup` on two concrete identical-body
chunks from different files, an empty cache, and concrete hash/encode
collaborators. -/
theorem embedding_cache_dedup_witness :
    _create_embedding_text c7ChunkA = _create_embedding_text c7ChunkB ∧
    "#" ++ _create_embedding_text c7ChunkA
      = "#" ++ _create_embedding_text c7ChunkB ∧
    (generate_embeddings (fun t => "#" ++ t) (fun _ => [1]) []
      [c7ChunkA]).modelTexts = [_create_embedding_text c7ChunkA] ∧
    (generate_embeddings (fun t => "#" ++ t) (fun _ => [1])
      (generate_embeddings (fun t => "#" ++ t) (fun _ => [1]) []
        [c7ChunkA]).cache [c7ChunkB]).modelTexts = [] ∧
    (generate_embeddings (fun t => "#" ++ t) (fun _ => [1]) []
      [c7ChunkA]).results = [("fa", [1])] ∧
    (generate_embeddings (fun t => "#" ++ t) (fun _ => [1])
      (generate_embeddings (fun t => "#" ++ t) (fun _ => [1]) []
        [c7ChunkA]).cache [c7ChunkB]).results = [("fb", [1])] ∧
    c7ChunkA.id ≠ c7ChunkB.id :=
  embedding_cache_dedup (fun t => "#" ++ t) (fun _ => [1]) []
    c7ChunkA c7ChunkB (by decide) rfl rfl rfl rfl rfl rfl rfl rfl rfl

/-! ## Provider selection: `LLMService.select_best_provider`
(src/server/app/services/llm_service.py, provider types from
`MODEL_PROVIDERS` in src/server/app/core/config.py).

`provider_status` is the insertion-ordered dict of `ProviderStatus`
values; measured latencies are rationals (only compared, never rounded);
Python's `p.response_time or float('inf')` treats both `None` and `0.0`
as infinite, modelled in `WithTop ℚ`. -/

/-- The fields of `ModelInfo` that provider selection reads. -/
structure ModelInfo where
  id : String
  recommended : Bool
  deriving DecidableEq, Repr

/-- The fields of `ProviderStatus` that provider selection reads. -/
structure ProviderStatus where
  name : String
  available : Bool
  models : List ModelInfo
  response_time : Option ℚ := none
  deriving DecidableEq, Repr

/-- `MODEL_PROVIDERS[name]["type"]` from app/core/config.py. -/
def MODEL_PROVIDERS_type : String → Option String
  | "ollama" => some "local"
  | "openai" => some "online"
  | "anthropic" => some "online"
  | "google" => some "online"
  | "groq" => some "online"
  | "together" => some "online"
  | _ => none

/-- `LLMService.get_available_providers`: available providers, filtered
by configured type when a mode is given. -/
def get_available_providers (provider_status : List ProviderStatus)
    (mode : Option String) : List ProviderStatus :=
  provider_status.filter (fun ps =>
    ps.available && (match mode with
      | none => true
      | some m => MODEL_PROVIDERS_type ps.name == some m))

/-- `next((m for m in models if m.recommended), models[0])`, partialised:
`none` exactly when `models` is empty. -/
def recommendedOrFirst (models : List ModelInfo) : Option ModelInfo :=
  match models.find? (fun m => m.recommended) with
  | some m => some m
  | none => models.head?

/-- The sort key `p.response_time or float('inf')`: `None` and `0.0` are
falsy in Python, so both become infinity. -/
def latencyKey (ps : ProviderStatus) : WithTop ℚ :=
  match ps.response_time with
  | none => ⊤
  | some t => if t = 0 then ⊤ else (t : WithTop ℚ)

/-- Python `min(xs, key=latencyKey)` (first minimum wins), `none` on an
empty list. -/
def pyMinBy (key : ProviderStatus → WithTop ℚ) :
    List ProviderStatus → Option ProviderStatus
  | [] => none
  | p :: ps => some (ps.foldl (fun b q => if key q < key b then q else b) p)

/-- Step 1 of `select_best_provider`: the preferred provider, when
present, available and with at least one model. -/
def selectPreferred (provider_status : List ProviderStatus)
    (preferred : Option String) : Option (String × String) :=
  match preferred with
  | none => none
  | some pname =>
    match provider_status.find? (fun ps => ps.name = pname) with
    | none => none
    | some st =>
      if st.available && !st.models.isEmpty then
        (recommendedOrFirst st.models).map (fun m => (pname, m.id))
      else none

/-- `"local" if self.current_mode == "local" else "online" if
self.current_mode == "online" else None`. -/
def modeFilter (current_mode : String) : Option String :=
  if current_mode = "local" then some "local"
  else if current_mode = "online" then some "online" else none

/-- Step 2: among mode-matching available providers, the one minimising
the latency key; yields nothing when that provider has no models. -/
def selectByMode (provider_status : List ProviderStatus)
    (current_mode : String) : Option (String × String) :=
  match pyMinBy latencyKey
      (get_available_providers provider_status (modeFilter current_mode)) with
  | none => none
  | some best =>
    match recommendedOrFirst best.models with
    | none => none
    | some m => some (best.name, m.id)

/-- Step 3: the first available provider with models, in dict order. -/
def selectFallback (provider_status : List ProviderStatus) :
    Option (String × String) :=
  match provider_status.find? (fun ps => ps.available && !ps.models.isEmpty) with
  | none => none
  | some st => (recommendedOrFirst st.models).map (fun m => (st.name, m.id))

/-- `LLMService.select_best_provider`: preferred provider first, then
best mode-matching provider by latency, then any available provider. -/
def select_best_provider (provider_status : List ProviderStatus)
    (current_mode : String) (preferred : Option String) :
    Option (String × String) :=
  match selectPreferred provider_status preferred with
  | some r => some r
  | none =>
    match selectByMode provider_status current_mode with
    | some r => some r
    | none => selectFallback provider_status

theorem recommendedOrFirst_of_ne_nil (models : List ModelInfo)
    (h : models ≠ []) : ∃ m, recommendedOrFirst models = some m := by
  unfold recommendedOrFirst
  cases hf : models.find? (fun m => m.recommended) with
  | some m => exact ⟨m, rfl⟩
  | none =>
    cases models with
    | nil => exact absurd rfl h
    | cons m ms => exact ⟨m, rfl⟩

/-- C5 (amended): with an unavailable or model-less preferred provider,
selection returns the mode-matching available provider minimising the
effective latency key (unmeasured or `0.0` latency counts as infinite,
first minimum wins) with its recommended-or-first model, provided that
provider has a model; and whenever any provider is available with a
model, selection returns something. -/
theorem select_best_provider_spec (provider_status : List ProviderStatus)
    (current_mode : String) (pname : String)
    (hunavail : ((provider_status.find? (fun ps => ps.name = pname)).all
      (fun st => !st.available || st.models.isEmpty)) = true) :
    (∀ best : ProviderStatus,
      pyMinBy latencyKey (get_available_providers provider_status
        (modeFilter current_mode)) = some best →
      best.models ≠ [] →
      select_best_provider provider_status current_mode (some pname)
        = (recommendedOrFirst best.models).map (fun m => (best.name, m.id))) ∧
    ((∃ ps ∈ provider_status, ps.available = true ∧ ps.models ≠ []) →
      (select_best_provider provider_status current_mode
        (some pname)).isSome = true) := by
  have hpref : selectPreferred provider_status (some pname) = none := by
    unfold selectPreferred
    cases hf : provider_status.find? (fun ps => ps.name = pname) with
    | none => simp only [hf]
    | some st =>
      rw [hf] at hunavail
      simp only [Option.all_some] at hunavail
      have hcond : (st.available && !st.models.isEmpty) = false := by
        cases hav : st.available <;> cases hem : st.models.isEmpty <;>
          simp_all
      simp only [hf, hcond, Bool.false_eq_true, if_false]
  constructor
  · intro best hmin hne
    obtain ⟨m, hm⟩ := recommendedOrFirst_of_ne_nil best.models hne
    unfold select_best_provider selectByMode
    simp only [hpref, hmin, hm, Option.map_some']
  · rintro ⟨ps, hmem, hav, hmodels⟩
    unfold select_best_provider
    cases h2 : selectByMode provider_status current_mode with
    | some r => simp only [hpref, h2, Option.isSome_some]
    | none =>
      simp only [hpref, h2]
      unfold selectFallback
      cases hf : provider_status.find?
          (fun ps => ps.available && !ps.models.isEmpty) with
      | none =>
        exfalso
        have hex : ∃ x ∈ provider_status,
            (x.available && !x.models.isEmpty) = true := by
          refine ⟨ps, hmem, ?_⟩
          simp [hav, hmodels]
        rw [← List.find?_isSome] at hex
        rw [hf] at hex
        simp at hex
      | some st =>
        have hp := List.find?_some hf
        have hstm : st.models ≠ [] := by
          intro h
          rw [h] at hp
          simp at hp
        obtain ⟨m, hm⟩ := recommendedOrFirst_of_ne_nil st.models hstm
        simp only [hm, Option.map_some', Option.isSome_some]

/-- An available online provider whose measured latency happens to be
exactly `0.0` seconds. -/
def c5Openai : ProviderStatus :=
  { name := "openai", available := true,
    models := [{ id := "gpt-4o", recommended := true }],
    response_time := some 0 }

/-- An available online provider with latency 1 second. -/
def c5Anthropic : ProviderStatus :=
  { name := "anthropic", available := true,
    models := [{ id := "claude-3-5-sonnet-20241022", recommended := true }],
    response_time := some 1 }

/-- An available provider used to witness the mode-selection path. -/
def c5Solo : ProviderStatus :=
  { name := "anthropic", available := true,
    models := [{ id := "claude-3-5-sonnet-20241022", recommended := true }],
    response_time := some 2 }

/-- Counterexample to C5 as stated: with the preferred provider absent,
`openai` measured at latency `0.0` and `anthropic` at `1.0` (both online,
available, with models), the code returns `anthropic` — not the provider
with the lowest measured latency — because `response_time or
float('inf')` treats a `0.0` measurement as missing. -/
theorem select_best_provider_counterexample :
    select_best_provider [c5Openai, c5Anthropic] "online" (some "groq")
      = some ("anthropic", "claude-3-5-sonnet-20241022") ∧
    c5Openai.response_time = some 0 ∧ c5Anthropic.response_time = some 1 ∧
    ((0 : ℚ) < 1) ∧ c5Openai.available = true ∧ c5Openai.models ≠ [] ∧
    MODEL_PROVIDERS_type "openai" = some "online" := by
  refine ⟨by decide, rfl, rfl, by decide, rfl, by decide, rfl⟩

/-- Witness for `select_best_provider_spec`: a single available provider
in mode `auto` is selected with its recommended model, and the selection
is non-empty. -/
theorem select_best_provider_spec_witness :
    select_best_provider [c5Solo] "auto" (some "groq")
      = some ("anthropic", "claude-3-5-sonnet-20241022") ∧
    (select_best_provider [c5Solo] "auto" (some "groq")).isSome = true :=
  ⟨(select_best_provider_spec [c5Solo] "auto" "groq" (by decide)).1 c5Solo
      (by decide) (by decide),
    (select_best_provider_spec [c5Solo] "auto" "groq" (by decide)).2
      ⟨c5Solo, by decide, by decide, by decide⟩⟩

/-! ## Vector store failure semantics: `QdrantVectorStore`
(src/indexer/vector_store/qdrant_client.py)

The Qdrant backend is external; each operation takes the outcome of its
backend call as an `Except String` parameter (`error` = the client call
raised, e.g. the store is unreachable).  A Python `raise` is an
`Except.error (PyError ...)` result; `PyError.storeUnavailable` exists so
the claimed behaviour is expressible, but no code path produces it. -/

/-- Exceptions a store operation could raise. -/
inductive PyError
  | runtimeError (msg : String)
  | storeUnavailable (msg : String)
  deriving DecidableEq, Repr

/-- A search hit as returned by the backend. -/
structure ScoredPoint where
  id : String
  score : ℚ
  deriving DecidableEq, Repr

/-- `QdrantVectorStore.search_similar`: raises `RuntimeError` when the
client is uninitialized or the collection is missing; any backend
exception is caught, logged, and turned into an empty result list. -/
def search_similar (initialized : Bool)
    (backend : Except String (List ScoredPoint)) :
    Except PyError (List ScoredPoint) :=
  if !initialized then
    Except.error (PyError.runtimeError
      "Client not initialized or collection doesn't exist")
  else
    match backend with
    | Except.ok pts => Except.ok pts
    | Except.error _ => Except.ok []

/-- `QdrantVectorStore.store_chunks`: `RuntimeError` when uninitialized,
`True` for an empty batch, `False` if the upsert loop raises or any
batch's status is not `COMPLETED` (`attempt` is the backend outcome: the
per-batch completion statuses, or the raised exception's message). -/
def store_chunks (initialized : Bool) (chunks : List CodeChunk)
    (attempt : Except String (List Bool)) : Except PyError Bool :=
  if !initialized then
    Except.error (PyError.runtimeError
      "Client not initialized or collection doesn't exist")
  else if chunks.isEmpty then Except.ok true
  else
    match attempt with
    | Except.error _ => Except.ok false
    | Except.ok statuses => Except.ok (statuses.all (fun b => b))

/-- `QdrantVectorStore.delete_by_file_path`: `RuntimeError` when
uninitialized; a backend exception or non-`COMPLETED` status becomes
`False`, success becomes `True`. -/
def delete_by_file_path (initialized : Bool) (attempt : Except String Bool) :
    Except PyError Bool :=
  if !initialized then
    Except.error (PyError.runtimeError
      "Client not initialized or collection doesn't exist")
  else
    match attempt with
    | Except.error _ => Except.ok false
    | Except.ok st => Except.ok st

/-- A chunk to exercise `store_chunks` with. -/
def c8Chunk : CodeChunk :=
  { id := "c8", content := "pass", chunk_type := .function,
    language := "python", file_path := "h.py", line_start := 1, line_end := 1 }

/-- C8 (amended): with an initialized client, a store-unreachable
backend failure is swallowed — search returns an empty list and
store/delete return `False` — and the only raised error is the
`RuntimeError` guard for an uninitialized client; no `StoreUnavailable`
error type exists in the code. -/
theorem store_errors_swallowed :
    (∀ e : String, search_similar true (Except.error e) = Except.ok []) ∧
    (∀ (e : String) (c : CodeChunk),
      store_chunks true [c] (Except.error e) = Except.ok false) ∧
    (∀ e : String, delete_by_file_path true (Except.error e)
      = Except.ok false) ∧
    (∀ backend, search_similar false backend
      = Except.error (PyError.runtimeError
          "Client not initialized or collection doesn't exist")) ∧
    (∀ (chunks : List CodeChunk) (attempt), store_chunks false chunks attempt
      = Except.error (PyError.runtimeError
          "Client not initialized or collection doesn't exist")) ∧
    (∀ attempt, delete_by_file_path false attempt
      = Except.error (PyError.runtimeError
          "Client not initialized or collection doesn't exist")) :=
  ⟨fun _ => rfl, fun _ _ => rfl, fun _ => rfl, fun _ => rfl,
    fun _ _ => rfl, fun _ => rfl⟩

/-- Counterexample to C8 as stated: with the store unreachable
(`"connection refused"`), `search_similar` returns `ok []`,
`store_chunks` returns `ok false` and `delete_by_file_path` returns
`ok false` — none of them raises a typed `StoreUnavailable` error. -/
theorem store_unavailable_counterexample :
    search_similar true (Except.error "connection refused") = Except.ok [] ∧
    store_chunks true [c8Chunk] (Except.error "connection refused")
      = Except.ok false ∧
    delete_by_file_path true (Except.error "connection refused")
      = Except.ok false ∧
    search_similar true (Except.error "connection refused")
      ≠ Except.error (PyError.storeUnavailable "connection refused") := by
  exact ⟨rfl, rfl, rfl, fun h => Except.noConfusion h⟩

/-! ## Streaming session manager: `WebSocketManager`
(src/server/app/services/websocket_manager.py)

`_stream_response` is modelled as a trace function: the generator's run
is a list of yield events — each carrying the chunk, whether `task_id`
was still registered in `streaming_tasks` at that iteration, and whether
`send_message` succeeded — followed by how the iteration ended (normal
exhaustion, an exception, or `asyncio.CancelledError` injected by
`task.cancel()`).  The output is the ordered list of messages the
manager sends for that task. -/

/-- The stream-related messages `_stream_response` sends. -/
inductive WsMsg
  | streamChunk (taskId chunk : String)
  | streamComplete (taskId : String)
  | streamError (taskId err : String)
  deriving DecidableEq, Repr

/-- Terminal messages: `stream_complete` and `stream_error`. -/
def isTerminal : WsMsg → Bool
  | .streamComplete _ => true
  | .streamError _ _ => true
  | _ => false

/-- How the `async for` iteration ends when the loop does not break. -/
inductive GenEnd
  | finished
  | raised (e : String)
  | cancelled
  deriving DecidableEq, Repr

/-- The `async for chunk in stream_generator` loop body: break silently
if the task was deregistered, otherwise send the chunk message and break
if the send failed.  Returns the chunk messages sent and whether the
loop broke early. -/
def streamLoop (tid : String) :
    List (String × Bool × Bool) → List WsMsg × Bool
  | [] => ([], false)
  | (c, reg, ok) :: rest =>
    if !reg then ([], true)
    else if !ok then ([WsMsg.streamChunk tid c], true)
    else ((WsMsg.streamChunk tid c) :: (streamLoop tid rest).1,
      (streamLoop tid rest).2)

/-- The single terminal message of `_stream_response`: reaching the code
after the loop (normal exhaustion or break) sends `stream_complete`; the
`except asyncio.CancelledError` handler sends `stream_error` with
"Generation was stopped"; the `except Exception` handler sends
`stream_error` with the exception text. -/
def terminalFor (tid : String) (broke : Bool) (ending : GenEnd) : WsMsg :=
  if broke then WsMsg.streamComplete tid
  else
    match ending with
    | .finished => WsMsg.streamComplete tid
    | .raised e => WsMsg.streamError tid e
    | .cancelled => WsMsg.streamError tid "Generation was stopped"

/-- `WebSocketManager._stream_response`: the chunk messages of the loop
followed by exactly the one terminal message of the outcome. -/
def _stream_response (tid : String) (yields : List (String × Bool × Bool))
    (ending : GenEnd) : List WsMsg :=
  (streamLoop tid yields).1
    ++ [terminalFor tid (streamLoop tid yields).2 ending]

theorem streamLoop_no_terminal (tid : String) :
    ∀ yields : List (String × Bool × Bool),
      ((streamLoop tid yields).1).filter isTerminal = [] := by
  intro yields
  induction yields with
  | nil => rfl
  | cons y rest ih =>
    obtain ⟨c, reg, ok⟩ := y
    cases reg <;> cases ok <;> simp [streamLoop, isTerminal, ih]

theorem terminalFor_isTerminal (tid : String) (b : Bool) (e : GenEnd) :
    isTerminal (terminalFor tid b e) = true := by
  cases b <;> cases e <;> rfl

/-- C3: every started streaming task sends exactly one terminal message,
it is the last message of the task's trace, and it is `stream_complete`
when the generator finishes (or the loop breaks) and `stream_error` with
a reason when the task is cancelled or raises — never both terminals,
never zero. -/
theorem stream_response_one_terminal (tid : String)
    (yields : List (String × Bool × Bool)) (ending : GenEnd) :
    (_stream_response tid yields ending).getLast?
      = some (terminalFor tid (streamLoop tid yields).2 ending) ∧
    ((_stream_response tid yields ending).filter isTerminal).length = 1 ∧
    ((_stream_response tid yields ending).dropLast.filter isTerminal) = [] ∧
    terminalFor tid false GenEnd.finished = WsMsg.streamComplete tid ∧
    terminalFor tid true ending = WsMsg.streamComplete tid ∧
    (∀ e, terminalFor tid false (GenEnd.raised e) = WsMsg.streamError tid e) ∧
    terminalFor tid false GenEnd.cancelled
      = WsMsg.streamError tid "Generation was stopped" := by
  refine ⟨?_, ?_, ?_, rfl, rfl, fun e => rfl, rfl⟩
  · exact List.getLast?_concat _
  · unfold _stream_response
    rw [List.filter_append, streamLoop_no_terminal]
    simp [terminalFor_isTerminal]
  · unfold _stream_response
    rw [List.dropLast_concat, streamLoop_no_terminal]

/-- The per-connection state `WebSocketConnection` (tracked fields:
`is_streaming`, `current_task_id`; the socket object and timestamps are
external). -/
structure WsConn where
  is_streaming : Bool := false
  current_task_id : Option String := none
  deriving DecidableEq, Repr

/-- The manager's mutable state: `self.connections` (dict client_id →
connection, as an ordered association list) and the ids registered in
`self.streaming_tasks`. -/
structure WSState where
  connections : List (String × WsConn)
  streaming_tasks : List String
  deriving DecidableEq, Repr

/-- `self.connections.get(client_id)`. -/
def getConn (cs : List (String × WsConn)) (cid : String) : Option WsConn :=
  (cs.find? (fun p => p.1 = cid)).map (fun p => p.2)

/-- Dict update of one client's connection record. -/
def setConn (cs : List (String × WsConn)) (cid : String) (c : WsConn) :
    List (String × WsConn) :=
  cs.map (fun p => if p.1 = cid then (cid, c) else p)

/-- `WebSocketManager._cancel_streaming_task`: cancel and await the
asyncio task, then remove `task_id` from `streaming_tasks`. -/
def _cancel_streaming_task (s : WSState) (tid : String) : WSState :=
  { s with streaming_tasks := s.streaming_tasks.filter (fun t => t ≠ tid) }

/-- `WebSocketManager.start_streaming_response`: for a known client,
first cancel its current task if any, then register the new task id and
mark the connection as streaming it. -/
def start_streaming_response (s : WSState) (cid tid : String) : WSState :=
  match getConn s.connections cid with
  | none => s
  | some conn =>
    match conn.current_task_id with
    | some old =>
      { streaming_tasks := tid :: (_cancel_streaming_task s old).streaming_tasks
        connections := setConn (_cancel_streaming_task s old).connections cid
          { conn with current_task_id := some tid, is_streaming := true } }
    | none =>
      { streaming_tasks := tid :: s.streaming_tasks
        connections := setConn s.connections cid
          { conn with current_task_id := some tid, is_streaming := true } }

/-- `WebSocketManager.disconnect`: cancel the client's active task if
any, then remove the session. -/
def disconnect (s : WSState) (cid : String) : WSState :=
  match getConn s.connections cid with
  | none => s
  | some conn =>
    match conn.current_task_id with
    | some t =>
      { streaming_tasks := (_cancel_streaming_task s t).streaming_tasks
        connections := (_cancel_streaming_task s t).connections.filter
          (fun p => p.1 ≠ cid) }
    | none =>
      { streaming_tasks := s.streaming_tasks
        connections := s.connections.filter (fun p => p.1 ≠ cid) }

theorem getConn_setConn (cid : String) (c : WsConn) :
    ∀ (cs : List (String × WsConn)) (conn : WsConn),
      getConn cs cid = some conn → getConn (setConn cs cid c) cid = some c := by
  intro cs
  induction cs with
  | nil => intro conn h; simp [getConn] at h
  | cons p ps ih =>
    intro conn h
    by_cases hp : p.1 = cid
    · unfold getConn setConn
      rw [List.map_cons, if_pos hp, List.find?_cons_of_pos _ (by simp)]
      rfl
    · unfold getConn at h
      unfold getConn setConn at ih ⊢
      rw [List.map_cons, if_neg hp, List.find?_cons_of_neg _ (by simp [hp])]
      rw [List.find?_cons_of_neg _ (by simp [hp])] at h
      exact ih conn h

theorem getConn_del (cid : String) : ∀ cs : List (String × WsConn),
    getConn (cs.filter (fun p => p.1 ≠ cid)) cid = none := by
  intro cs
  induction cs with
  | nil => rfl
  | cons p ps ih =>
    unfold getConn at ih ⊢
    rw [List.filter_cons]
    by_cases hp : p.1 = cid
    · rw [if_neg (by simp [hp])]
      exact ih
    · rw [if_pos (by simp [hp])]
      rw [List.find?_cons_of_neg _ (by simp [hp])]
      exact ih

/-- C4: starting a new streaming task for a connection that already has
one first cancels the old task (it leaves `streaming_tasks`) and
registers the new task as the connection's single `current_task_id`;
`disconnect` cancels the connection's active task and removes the
session. -/
theorem session_single_task (s : WSState) (cid tid old : String)
    (conn : WsConn)
    (hconn : getConn s.connections cid = some conn)
    (htask : conn.current_task_id = some old)
    (hne : old ≠ tid) :
    (old ∉ (start_streaming_response s cid tid).streaming_tasks ∧
      tid ∈ (start_streaming_response s cid tid).streaming_tasks ∧
      getConn (start_streaming_response s cid tid).connections cid
        = some { conn with current_task_id := some tid, is_streaming := true }) ∧
    (getConn (disconnect s cid).connections cid = none ∧
      old ∉ (disconnect s cid).streaming_tasks) := by
  have hstart : start_streaming_response s cid tid
      = { streaming_tasks := tid :: (_cancel_streaming_task s old).streaming_tasks
          connections := setConn (_cancel_streaming_task s old).connections cid
            { conn with current_task_id := some tid, is_streaming := true } } := by
    unfold start_streaming_response
    simp only [hconn, htask]
  have hdisc : disconnect s cid
      = { streaming_tasks := (_cancel_streaming_task s old).streaming_tasks
          connections := (_cancel_streaming_task s old).connections.filter
            (fun p => p.1 ≠ cid) } := by
    unfold disconnect
    simp only [hconn, htask]
  have hfilter : old ∉ s.streaming_tasks.filter (fun t => t ≠ old) := by
    intro hmem
    have := List.of_mem_filter hmem
    simp at this
  refine ⟨⟨?_, ?_, ?_⟩, ?_, ?_⟩
  · rw [hstart]
    intro hmem
    rcases List.mem_cons.mp hmem with h | h
    · exact hne h
    · exact hfilter h
  · rw [hstart]
    exact List.mem_cons_self _ _
  · rw [hstart]
    exact getConn_setConn cid _ _ conn hconn
  · rw [hdisc]
    exact getConn_del cid _
  · rw [hdisc]
    exact hfilter

/-- A connection already streaming task `t1`. -/
def c4Conn : WsConn := { is_streaming := true, current_task_id := some "t1" }

/-- A manager state with one client running one task. -/
def c4State : WSState :=
  { connections := [("alice", c4Conn)], streaming_tasks := ["t1"] }

/-- Witness for `session_single_task` at a concrete one-client state. -/
theorem session_single_task_witness :
    ("t1" ∉ (start_streaming_response c4State "alice" "t2").streaming_tasks ∧
      "t2" ∈ (start_streaming_response c4State "alice" "t2").streaming_tasks ∧
      getConn (start_streaming_response c4State "alice" "t2").connections
        "alice" = some { c4Conn with current_task_id := some "t2", is_streaming := true }) ∧
    (getConn (disconnect c4State "alice").connections "alice" = none ∧
      "t1" ∉ (disconnect c4State "alice").streaming_tasks) :=
  session_single_task c4State "alice" "t2" "t1" c4Conn (by decide) (by decide)
    (by decide)

end Reflyx
